import Mathlib

/-!
Shallow embedding of `src/ui/status.py` (ZPUI): the `Zone` differential-rendering
cell, the `ZoneSpacer` layout placeholders, and the `ZoneManager` layout /
compositing engine.

Modelling conventions:
* Python values that may be `None` are modelled as `Option _`; the class
  attributes `value = None`, `image = None`, `prev_value = None` become the
  default fields of `Zone`.
* The value callback is impure in the source (it reads the outside world), so
  each call of `needs_refresh` / `refresh` receives the value the callback
  returned on that invocation as an explicit argument `new_value`; this covers
  both the `v_pass_self` and plain variants.
* The image callback is modelled as a pure function `icb : Option V → I` of the
  zone's current value (the source invariant "image reflects image_cb(value)"
  presupposes this determinism); the ghost field `icb_calls` counts how many
  times the callback has actually been invoked.
* The cache dict is an association list keyed by the (optional) value;
  `lookupC` is the dict lookup.
* Machine-level failures of the Python code (`TypeError` from `x += None`,
  `AttributeError` from `None.height`) are modelled by making the manager's
  `show` return `Except PyErr _`.
-/

structure Zone (V I : Type) where
  caching : Bool := true
  value : Option V := none
  image : Option I := none
  prev_value : Option V := none
  cache : List (Option V × I) := []
  icb_calls : Nat := 0
deriving DecidableEq, Repr

/-- A zone exactly as `Zone.__init__` leaves it (class attributes all `None`,
empty cache). -/
def Zone.fresh {V I : Type} (c : Bool) : Zone V I := { caching := c }

/-- Python dict lookup on the association-list representation of the cache. -/
def lookupC {V I : Type} [DecidableEq V] : List (Option V × I) → Option V → Option I
  | [], _ => none
  | (k, i) :: rest, q => if k = q then some i else lookupC rest q

/-- `Zone.needs_refresh`: compare the value the callback returned with the
stored one; on inequality shift `value` into `prev_value`, store the new value
and report `true`. -/
def Zone.needs_refresh {V I : Type} [DecidableEq V] (z : Zone V I)
    (new_value : Option V) : Bool × Zone V I :=
  if new_value ≠ z.value then
    (true, { z with prev_value := z.value, value := new_value })
  else
    (false, z)

/-- `Zone.update_image`: consult the cache when caching is on (hit returns the
stored image without invoking the callback), otherwise invoke the image
callback and, when caching, store the result under the current value. -/
def Zone.update_image {V I : Type} [DecidableEq V] (icb : Option V → I)
    (z : Zone V I) : I × Zone V I :=
  if z.caching then
    match lookupC z.cache z.value with
    | some img => (img, z)
    | none =>
      (icb z.value,
       { z with cache := (z.value, icb z.value) :: z.cache,
                icb_calls := z.icb_calls + 1 })
  else
    (icb z.value, { z with icb_calls := z.icb_calls + 1 })

/-- `Zone.get_image`: the retained image, no recomputation. -/
def Zone.get_image {V I : Type} (z : Zone V I) : Option I := z.image

/-- `Zone.refresh`: if the value changed, regenerate/fetch the image and store
it; report whether a redraw occurred. -/
def Zone.refresh {V I : Type} [DecidableEq V] (icb : Option V → I) (z : Zone V I)
    (new_value : Option V) : Bool × Zone V I :=
  match z.needs_refresh new_value with
  | (true, z1) =>
    match Zone.update_image icb z1 with
    | (img, z2) => (true, { z2 with image := some img })
  | (false, z1) => (false, z1)

/-- A sequence of `refresh` calls, the environment supplying the value the
value callback produced at each call. -/
def Zone.run {V I : Type} [DecidableEq V] (icb : Option V → I) :
    Zone V I → List (Option V) → Zone V I
  | z, [] => z
  | z, v :: vs => Zone.run icb (Zone.refresh icb z v).2 vs

theorem Zone.run_append {V I : Type} [DecidableEq V] (icb : Option V → I)
    (z : Zone V I) (vs ws : List (Option V)) :
    Zone.run icb z (vs ++ ws) = Zone.run icb (Zone.run icb z vs) ws := by
  induction vs generalizing z with
  | nil => rfl
  | cons v vs ih => simp [Zone.run, ih]

/-! ### Basic `Zone` lemmas -/

theorem Zone.refresh_fst {V I : Type} [DecidableEq V] (icb : Option V → I)
    (z : Zone V I) (nv : Option V) :
    (Zone.refresh icb z nv).1 = true ↔ nv ≠ z.value := by
  by_cases h : nv = z.value <;>
    simp [Zone.refresh, Zone.needs_refresh, h]

theorem Zone.refresh_caching {V I : Type} [DecidableEq V] (icb : Option V → I)
    (z : Zone V I) (nv : Option V) :
    ((Zone.refresh icb z nv).2).caching = z.caching := by
  by_cases h : nv = z.value
  · simp [Zone.refresh, Zone.needs_refresh, h]
  · simp only [Zone.refresh, Zone.needs_refresh, if_pos (by exact h : nv ≠ z.value)]
    simp only [Zone.update_image]
    split
    · split <;> simp
    · simp

theorem Zone.run_caching {V I : Type} [DecidableEq V] (icb : Option V → I)
    (z : Zone V I) (vs : List (Option V)) :
    (Zone.run icb z vs).caching = z.caching := by
  induction vs generalizing z with
  | nil => rfl
  | cons v vs ih => rw [Zone.run, ih, Zone.refresh_caching]

theorem Zone.refresh_of_eq {V I : Type} [DecidableEq V] (icb : Option V → I)
    {z : Zone V I} {nv : Option V} (h : nv = z.value) :
    Zone.refresh icb z nv = (false, z) := by
  simp [Zone.refresh, Zone.needs_refresh, h]

theorem Zone.refresh_of_ne {V I : Type} [DecidableEq V] (icb : Option V → I)
    {z : Zone V I} {nv : Option V} (h : nv ≠ z.value) :
    Zone.refresh icb z nv =
      (true,
       { (Zone.update_image icb { z with prev_value := z.value, value := nv }).2
         with image :=
           some (Zone.update_image icb { z with prev_value := z.value, value := nv }).1 }) := by
  simp only [Zone.refresh, Zone.needs_refresh, if_pos h]

theorem Zone.refresh_cache_lookup {V I : Type} [DecidableEq V] (icb : Option V → I)
    (z : Zone V I) (v k : Option V) (i : I)
    (h : lookupC z.cache k = some i) :
    lookupC ((Zone.refresh icb z v).2).cache k = some i := by
  by_cases hv : v = z.value
  · rw [Zone.refresh_of_eq icb hv]
    exact h
  · rw [Zone.refresh_of_ne icb hv]
    simp only [Zone.update_image]
    split
    · split
      · exact h
      · rename_i hmiss
        simp only [lookupC]
        by_cases hk : v = k
        · subst hk
          rw [hmiss] at h
          exact absurd h (by simp)
        · simp only [if_neg hk]
          exact h
    · exact h

theorem Zone.run_cache_lookup {V I : Type} [DecidableEq V] (icb : Option V → I)
    (z : Zone V I) (vs : List (Option V)) (k : Option V) (i : I)
    (h : lookupC z.cache k = some i) :
    lookupC ((Zone.run icb z vs)).cache k = some i := by
  induction vs generalizing z with
  | nil => exact h
  | cons v vs ih =>
    rw [Zone.run]
    exact ih _ (Zone.refresh_cache_lookup icb z v k i h)

theorem Zone.update_image_hit {V I : Type} [DecidableEq V] (icb : Option V → I)
    {z : Zone V I} {img : I} (hc : z.caching = true)
    (h : lookupC z.cache z.value = some img) :
    Zone.update_image icb z = (img, z) := by
  simp [Zone.update_image, hc, h]

theorem Zone.refresh_cache_hit {V I : Type} [DecidableEq V] (icb : Option V → I)
    {z : Zone V I} {v : Option V} {img : I} (hc : z.caching = true)
    (hv : v ≠ z.value) (h : lookupC z.cache v = some img) :
    Zone.refresh icb z v =
      (true, { z with prev_value := z.value, value := v, image := some img }) := by
  rw [Zone.refresh_of_ne icb hv,
      Zone.update_image_hit icb (z := { z with prev_value := z.value, value := v }) hc h]

/-! ### Zone invariants (cache consistency, image/value link) -/

/-- Every cache entry holds exactly the image the (pure) image callback
produces for its key. -/
def Zone.cache_ok {V I : Type} [DecidableEq V] (icb : Option V → I) (z : Zone V I) : Prop :=
  ∀ k i, lookupC z.cache k = some i → i = icb k

/-- Whenever an image is stored, it is the callback's image for the current
value. -/
def Zone.image_ok {V I : Type} [DecidableEq V] (icb : Option V → I) (z : Zone V I) : Prop :=
  ∀ i, z.image = some i → i = icb z.value

theorem Zone.refresh_inv {V I : Type} [DecidableEq V] (icb : Option V → I)
    (z : Zone V I) (v : Option V)
    (h : Zone.cache_ok icb z ∧ Zone.image_ok icb z) :
    Zone.cache_ok icb (Zone.refresh icb z v).2 ∧
      Zone.image_ok icb (Zone.refresh icb z v).2 := by
  by_cases hv : v = z.value
  · rw [Zone.refresh_of_eq icb hv]
    exact h
  · rw [Zone.refresh_of_ne icb hv]
    simp only [Zone.update_image]
    split
    · rcases hl : lookupC z.cache v with _ | img
      · simp only [hl]
        constructor
        · intro k i hki
          simp only [lookupC] at hki
          by_cases hk : v = k
          · subst hk
            simp only [if_pos rfl] at hki
            rw [← Option.some_inj.mp hki]
          · rw [if_neg hk] at hki
            exact h.1 k i hki
        · intro i hi
          exact Option.some_inj.mp hi.symm
      · simp only [hl]
        constructor
        · exact h.1
        · intro i hi
          rw [← Option.some_inj.mp hi]
          exact h.1 v img hl
    · constructor
      · exact h.1
      · intro i hi
        exact Option.some_inj.mp hi.symm

theorem Zone.run_inv {V I : Type} [DecidableEq V] (icb : Option V → I)
    (z : Zone V I) (vs : List (Option V))
    (h : Zone.cache_ok icb z ∧ Zone.image_ok icb z) :
    Zone.cache_ok icb (Zone.run icb z vs) ∧ Zone.image_ok icb (Zone.run icb z vs) := by
  induction vs generalizing z with
  | nil => exact h
  | cons v vs ih =>
    rw [Zone.run]
    exact ih _ (Zone.refresh_inv icb z v h)

theorem Zone.fresh_inv {V I : Type} [DecidableEq V] (icb : Option V → I) (c : Bool) :
    Zone.cache_ok icb (Zone.fresh c : Zone V I) ∧
      Zone.image_ok icb (Zone.fresh c : Zone V I) := by
  constructor
  · intro k i hki
    simp [Zone.fresh, lookupC] at hki
  · intro i hi
    simp [Zone.fresh] at hi

/-! ### Claims C1, C2, C6, C9 (the `Zone` component) -/

/-- C1 (amended): `refresh()` returns true iff the value the callback produced
differs from the currently stored value; since a freshly constructed zone
stores `None`, the very first `refresh()` returns true iff the callback
produced anything other than `None` (a first callback result of `None` makes
it return false). -/
theorem claim_C1 (V I : Type) [DecidableEq V] :
    (∀ (icb : Option V → I) (z : Zone V I) (nv : Option V),
        (Zone.refresh icb z nv).1 = true ↔ nv ≠ z.value) ∧
    (∀ (icb : Option V → I) (c : Bool) (nv : Option V),
        (Zone.refresh icb (Zone.fresh c) nv).1 = true ↔ nv ≠ none) := by
  refine ⟨fun icb z nv => Zone.refresh_fst icb z nv, fun icb c nv => ?_⟩
  simpa [Zone.fresh] using Zone.refresh_fst icb (Zone.fresh c) nv

/-- C1, claim as stated, is false: on the very first call after construction a
value callback that returns `None` makes `refresh()` return false, not true. -/
theorem claim_C1_counterexample :
    (Zone.refresh (fun _ => (0 : Nat)) (Zone.fresh true : Zone Nat Nat) none).1 = false := by
  decide

theorem claim_C1_witness :
    (Zone.refresh (fun _ => (3 : Nat)) (Zone.fresh true : Zone Nat Nat) (some 5)).1 = true :=
  ((claim_C1 Nat Nat).2 (fun _ => 3) true (some 5)).mpr (by decide)

/-- C2: for a caching zone that already stores an image `img` for value `v`,
after any further sequence of refreshes the cache still maps `v` to that very
`img`; an `update_image` while the current value is `v` returns `img` and
leaves the zone untouched (in particular `icb_calls` does not grow — the image
callback is not invoked), and a refresh that lands on `v` again stores exactly
`img` without invoking the image callback. -/
theorem claim_C2 (V I : Type) [DecidableEq V] (icb : Option V → I) (z : Zone V I)
    (v : Option V) (img : I) (hc : z.caching = true)
    (hstored : lookupC z.cache v = some img) (vs : List (Option V)) :
    lookupC (Zone.run icb z vs).cache v = some img ∧
    ((Zone.run icb z vs).value = v →
       Zone.update_image icb (Zone.run icb z vs) = (img, Zone.run icb z vs)) ∧
    ((Zone.run icb z vs).value ≠ v →
       Zone.refresh icb (Zone.run icb z vs) v =
         (true, { Zone.run icb z vs with
                  prev_value := (Zone.run icb z vs).value,
                  value := v, image := some img })) := by
  have hc' : (Zone.run icb z vs).caching = true := by
    rw [Zone.run_caching]; exact hc
  have hp := Zone.run_cache_lookup icb z vs v img hstored
  refine ⟨hp, fun hv => ?_, fun hv => ?_⟩
  · exact Zone.update_image_hit icb hc' (by rw [hv]; exact hp)
  · exact Zone.refresh_cache_hit icb hc' (Ne.symm hv) hp

def zC2 : Zone Nat Nat := { caching := true, value := some 2, cache := [(some 1, 42)] }

def icbC2 : Option Nat → Nat := fun _ => 99

theorem claim_C2_witness :
    Zone.refresh icbC2 (Zone.run icbC2 zC2 [some 3]) (some 1) =
      (true, { Zone.run icbC2 zC2 [some 3] with
               prev_value := (Zone.run icbC2 zC2 [some 3]).value,
               value := some 1, image := some 42 }) :=
  (claim_C2 Nat Nat icbC2 zC2 (some 1) 42 rfl rfl [some 3]).2.2 (by decide)

/-- C9: for a zone with caching disabled, every refresh whose value changed
invokes the image callback exactly once (`icb_calls` grows by one), no matter
whether the value was seen and rendered before. -/
theorem claim_C9 (V I : Type) [DecidableEq V] (icb : Option V → I) (z : Zone V I)
    (nv : Option V) (h1 : z.caching = false) (h2 : nv ≠ z.value) :
    Zone.refresh icb z nv =
      (true, { z with
               prev_value := z.value, value := nv,
               image := some (icb nv), icb_calls := z.icb_calls + 1 }) := by
  rw [Zone.refresh_of_ne icb h2]
  simp [Zone.update_image, h1]

def zC9 : Zone Nat Nat := { caching := false, value := some 2, image := some 9, icb_calls := 1 }

theorem claim_C9_witness :
    Zone.refresh (fun _ => (9 : Nat)) zC9 (some 1) =
      (true, { caching := false, value := some 1, image := some 9,
               prev_value := some 2, cache := [], icb_calls := 2 }) :=
  claim_C9 Nat Nat (fun _ => 9) zC9 (some 1) rfl (by decide)

def icbC6 : Option Nat → Nat := fun v =>
  match v with
  | some n => 10 * n
  | none => 7

/-- C6 (amended): in every state reachable by refreshes from construction, the
cache maps each key to exactly the image the callback produces for it and a
non-`None` stored image equals the callback's image for the current value
(after a refresh that reported no change ever happened the image may still be
`None`); and a cache entry, once present, is never overwritten or removed by a
further refresh. -/
theorem claim_C6 (V I : Type) [DecidableEq V] (icb : Option V → I) (c : Bool)
    (vs : List (Option V)) :
    (∀ k i, lookupC (Zone.run icb (Zone.fresh c) vs).cache k = some i → i = icb k) ∧
    (∀ i, (Zone.run icb (Zone.fresh c) vs).image = some i →
        i = icb (Zone.run icb (Zone.fresh c) vs).value) ∧
    (∀ k i v, lookupC (Zone.run icb (Zone.fresh c) vs).cache k = some i →
        lookupC ((Zone.refresh icb (Zone.run icb (Zone.fresh c) vs) v).2).cache k = some i) := by
  have h := Zone.run_inv icb (Zone.fresh c) vs (Zone.fresh_inv icb c)
  exact ⟨h.1, h.2, fun k i v hk => Zone.refresh_cache_lookup icb _ v k i hk⟩

/-- C6, claim as stated, is false: a freshly constructed zone whose value
callback returns `None` on the first refresh keeps `image = None`, which is not
the image the image callback produces for the stored value. -/
theorem claim_C6_counterexample :
    ¬ ((Zone.run icbC6 (Zone.fresh true : Zone Nat Nat) [none]).image =
        some (icbC6 (Zone.run icbC6 (Zone.fresh true : Zone Nat Nat) [none]).value)) := by
  decide

theorem claim_C6_witness :
    (20 : Nat) = icbC6 (Zone.run icbC6 (Zone.fresh true : Zone Nat Nat) [some 1, some 2]).value :=
  (claim_C6 Nat Nat icbC6 true [some 1, some 2]).2.1 20 rfl

/-! ### ZoneManager: data model

`Img` stands for a PIL image, of which the layout code only consults `width`
and `height`.  A markup cell is either a string (a zone key or a filler/unknown
string) or one of the two spacer classes; `Cell.spacer` is `ZoneSpacer(value)`
and `Cell.vspacer` is `VerticalZoneSpacer(value)`.  The zone dictionary is an
association list keyed by strings, the dirty-flag dictionary
`zones_that_need_refresh` a boolean-valued function on keys. -/

structure Img where
  width : Nat
  height : Nat
deriving DecidableEq, Repr

inductive Cell where
  | str : String → Cell
  | spacer : Int → Cell
  | vspacer : Int → Cell
deriving DecidableEq, Repr

/-- Uncaught Python exceptions the layout code can raise: `TypeError` from
`x += None` / `y += None`, `AttributeError` from `None.height` /
`None.width` / pasting `None`. -/
inductive PyErr where
  | typeError
  | attributeError
deriving DecidableEq, Repr

abbrev Zones (V : Type) := List (String × Zone V Img)

def lookupZ {V : Type} : Zones V → String → Option (Zone V Img)
  | [], _ => none
  | (k, z) :: rest, q => if k = q then some z else lookupZ rest q

def setZone {V : Type} (zs : Zones V) (k : String) (z : Zone V Img) : Zones V :=
  zs.map (fun p => if p.1 = k then (k, z) else p)

def setFlag (f : String → Bool) (k : String) (b : Bool) : String → Bool :=
  fun q => if q = k then b else f q

/-- `ZoneManager.get_element_height`: a zone key yields its image's height
(crashing like `None.height` when the zone never produced an image), a vertical
spacer its value, anything else `None`. -/
def get_element_height {V : Type} (zs : Zones V) : Cell → Except PyErr (Option Int)
  | .str s =>
    match lookupZ zs s with
    | some z =>
      match z.image with
      | some img => .ok (some (img.height : Int))
      | none => .error .attributeError
    | none => .ok none
  | .vspacer v => .ok (some v)
  | .spacer _ => .ok none

/-- `ZoneManager.get_element_width`: a zone key yields its image's width, a
plain (non-vertical) spacer its value, anything else `None`. -/
def get_element_width {V : Type} (zs : Zones V) : Cell → Except PyErr (Option Int)
  | .str s =>
    match lookupZ zs s with
    | some z =>
      match z.image with
      | some img => .ok (some (img.width : Int))
      | none => .error .attributeError
    | none => .ok none
  | .spacer v => .ok (some v)
  | .vspacer _ => .ok none

/-! ### Python 2 list helpers used by `show` -/

/-- Python truthiness for optional ints: `filter(None, xs)` keeps the values
that are neither `None` nor `0`. -/
def truthyInt : Option Int → Option Int
  | some n => if n = 0 then none else some n
  | none => none

def pyFilterTruthy (xs : List (Option Int)) : List Int :=
  xs.filterMap truthyInt

/-- Python 2 `max` of two possibly-`None` ints: `None` compares below every
int. -/
def pyMax2 : Option Int → Option Int → Option Int
  | none, b => b
  | some a, none => some a
  | some a, some b => some (max a b)

/-- Python 2 `max(xs)` (only ever called on nonempty lists in the source). -/
def pyMaxList : List (Option Int) → Option Int
  | [] => none
  | x :: xs => xs.foldl pyMax2 x

/-- One row's height: `max(item_heights)` if `filter(None, item_heights)` is
nonempty, else `None`. -/
def pyRowHeight (hs : List (Option Int)) : Option Int :=
  if pyFilterTruthy hs = [] then none else pyMaxList hs

/-- The space-redistribution step shared by the row-height pass (lines
135-147) and the per-row column-width pass (lines 154-166): when there is at
least one `None` entry and positive leftover space, every `None` entry becomes
`int(empty_space / empty_amount)` (Python 2 floor division); otherwise the
list is returned unchanged (the `None` entries stay `None`). -/
def redistribute (total : Int) (xs : List (Option Int)) : List (Option Int) :=
  if xs.count none = 0 then
    xs
  else
    if 0 < total - (pyFilterTruthy xs).sum then
      xs.map (fun h =>
        if h = none then some ((total - (pyFilterTruthy xs).sum).fdiv (xs.count none)) else h)
    else
      xs

/-- Is the markup string made up exclusively of the filler character? (An
empty string vacuously is, exactly as `all([...])` in the source.) -/
def allDots (s : String) : Bool := s.data.all (fun c => c = '.')

/-! ### `ZoneManager.show`, phase 1: refresh + row heights (lines 114-147) -/

/-- The mutable state threaded through the refresh part of `show`: the zone
dict (zones are mutated in place by `refresh`), the dirty-flag dict, and the
warnings the logger received. -/
structure RState (V : Type) where
  zones : Zones V
  flags : String → Bool
  warnings : List String

/-- Lines 117-128: refresh a single markup cell.  A known zone key is
refreshed and its dirty flag set when the zone reported a change and the flag
was not already set; an unknown string that is not all filler characters logs a
warning; spacers do nothing. -/
def refreshCell {V : Type} [DecidableEq V] (env : String → Option V)
    (icbs : String → Option V → Img) (st : RState V) : Cell → RState V
  | .str s =>
    match lookupZ st.zones s with
    | some z =>
      match Zone.refresh (icbs s) z (env s) with
      | (has_refreshed, z2) =>
        { zones := setZone st.zones s z2,
          flags := if has_refreshed && !(st.flags s) then setFlag st.flags s true else st.flags,
          warnings := st.warnings }
    | none =>
      if allDots s then st else { st with warnings := st.warnings ++ [s] }
  | .spacer _ => st
  | .vspacer _ => st

/-- Line 129: `[self.get_element_height(item) for item in row]`, evaluated left
to right, the first `None.height` raising. -/
def heightsRow {V : Type} (zs : Zones V) : List Cell → Except PyErr (List (Option Int))
  | [] => .ok []
  | c :: rest =>
    match get_element_height zs c with
    | .error e => .error e
    | .ok h =>
      match heightsRow zs rest with
      | .error e => .error e
      | .ok hs => .ok (h :: hs)

/-- Lines 116-134: per row, refresh every cell, then gather the row's height. -/
def phase1 {V : Type} [DecidableEq V] (env : String → Option V)
    (icbs : String → Option V → Img) :
    RState V → List (List Cell) → Except PyErr (RState V × List (Option Int))
  | st, [] => .ok (st, [])
  | st, row :: rest =>
    match heightsRow (row.foldl (refreshCell env icbs) st).zones row with
    | .error e => .error e
    | .ok hs =>
      match phase1 env icbs (row.foldl (refreshCell env icbs) st) rest with
      | .error e => .error e
      | .ok (st2, rhs) => .ok (st2, pyRowHeight hs :: rhs)

/-! ### `ZoneManager.show`, phase 2: column widths + compositing (lines 148-178) -/

def widthsRow {V : Type} (zs : Zones V) : List Cell → Except PyErr (List (Option Int))
  | [] => .ok []
  | c :: rest =>
    match get_element_width zs c with
    | .error e => .error e
    | .ok w =>
      match widthsRow zs rest with
      | .error e => .error e
      | .ok ws => .ok (w :: ws)

/-- A `canvas.paste(image, (x, y))` event recorded during compositing. -/
structure Paste where
  key : String
  img : Img
  x : Int
  y : Int
deriving DecidableEq, Repr

/-- `item in self.zones` plus the dict access: the cell together with the zone
it refers to when it is a known zone key. -/
def cellZone {V : Type} (zs : Zones V) : Cell → Option (String × Zone V Img)
  | .str s =>
    match lookupZ zs s with
    | some z => some (s, z)
    | none => none
  | .spacer _ => none
  | .vspacer _ => none

/-- Lines 167-176: walk one row's cells with their computed widths.  A
non-zone cell advances the cursor by its width (`x += None` raising
`TypeError`).  A zone cell is pasted when its dirty flag is set (pasting a
zone that never rendered an image crashes), the flag is cleared, and the
cursor advances by the cell's width. -/
def compositeItems {V : Type} (zs : Zones V) (y : Int) :
    (String → Bool) → Int → List (Cell × Option Int) →
    Except PyErr ((String → Bool) × List Paste)
  | flags, _, [] => .ok (flags, [])
  | flags, x, (c, w) :: rest =>
    match cellZone zs c with
    | none =>
      match w with
      | none => .error .typeError
      | some wv => compositeItems zs y flags (x + wv) rest
    | some (k, z) =>
      if flags k then
        match z.image with
        | none => .error .attributeError
        | some img =>
          match w with
          | none => .error .typeError
          | some wv =>
            match compositeItems zs y (setFlag flags k false) (x + wv) rest with
            | .error e => .error e
            | .ok (fl, ps) => .ok (fl, ⟨k, img, x, y⟩ :: ps)
      else
        match w with
        | none => .error .typeError
        | some wv => compositeItems zs y flags (x + wv) rest

/-- Lines 149-177: for each row (already paired with its resolved height),
compute widths, redistribute leftover width, composite the row, then advance
`y` by the row height (`y += None` raising `TypeError`). -/
def phase2 {V : Type} (zs : Zones V) (ow : Int) :
    (String → Bool) → Int → List (List Cell × Option Int) →
    Except PyErr ((String → Bool) × List Paste)
  | flags, _, [] => .ok (flags, [])
  | flags, y, (row, rh) :: rest =>
    match widthsRow zs row with
    | .error e => .error e
    | .ok ws =>
      match compositeItems zs y flags 0 (row.zip (redistribute ow ws)) with
      | .error e => .error e
      | .ok (fl1, ps1) =>
        match rh with
        | none => .error .typeError
        | some h =>
          match phase2 zs ow fl1 (y + h) rest with
          | .error e => .error e
          | .ok (fl2, ps2) => .ok (fl2, ps1 ++ ps2)

/-! ### The `ZoneManager` itself -/

structure ZoneManager (V : Type) where
  zones : Zones V
  markup : List (List Cell)
  zones_that_need_refresh : String → Bool
  width : Nat
  height : Nat

/-- What one `show()` call produced besides the updated manager state: the
warnings logged, the paste events the canvas received (in order), and the
resolved row heights. -/
structure ShowOut where
  warnings : List String
  pastes : List Paste
  row_heights : List (Option Int)

/-- `ZoneManager.show`: refresh pass + row-height pass, vertical
redistribution, then the per-row width pass and compositing.  `env` supplies
the value each zone's value callback returns during this cycle and `icbs` the
zones' image callbacks. -/
def ZoneManager.show {V : Type} [DecidableEq V] (env : String → Option V)
    (icbs : String → Option V → Img) (zm : ZoneManager V) :
    Except PyErr (ZoneManager V × ShowOut) :=
  match phase1 env icbs ⟨zm.zones, zm.zones_that_need_refresh, []⟩ zm.markup with
  | .error e => .error e
  | .ok (st, rhs) =>
    match phase2 st.zones (zm.width : Int) st.flags 0
        (zm.markup.zip (redistribute (zm.height : Int) rhs)) with
    | .error e => .error e
    | .ok (fl, ps) =>
      .ok ({ zm with zones := st.zones, zones_that_need_refresh := fl },
           ⟨st.warnings, ps, redistribute (zm.height : Int) rhs⟩)

/-- `ZoneManager.refresh_on_start`: refresh every zone in the collection and
mark every zone dirty. -/
def refresh_on_start {V : Type} [DecidableEq V] (env : String → Option V)
    (icbs : String → Option V → Img) (zs : Zones V) (flags : String → Bool) :
    Zones V × (String → Bool) :=
  (zs.map (fun p => (p.1, (Zone.refresh (icbs p.1) p.2 (env p.1)).2)),
   fun k => if zs.any (fun p => p.1 = k) then true else flags k)

/-- `ZoneManager.__init__`: bind zones and markup, start with an empty dirty
dict, and run `refresh_on_start`. -/
def ZoneManager.init {V : Type} [DecidableEq V] (env : String → Option V)
    (icbs : String → Option V → Img) (zs : Zones V) (markup : List (List Cell))
    (w h : Nat) : ZoneManager V :=
  { zones := (refresh_on_start env icbs zs (fun _ => false)).1,
    markup := markup,
    zones_that_need_refresh := (refresh_on_start env icbs zs (fun _ => false)).2,
    width := w, height := h }

/-- Total accessor for a successful `show` (used to phrase witnesses): the
updated manager and outputs, or the input state and empty outputs when `show`
raised. -/
def ZoneManager.showResult {V : Type} [DecidableEq V] (env : String → Option V)
    (icbs : String → Option V → Img) (zm : ZoneManager V) :
    ZoneManager V × ShowOut :=
  match ZoneManager.show env icbs zm with
  | .ok r => r
  | .error _ => (zm, ⟨[], [], []⟩)

/-! ### Layout lemmas and claims C4, C10 -/

theorem pyFilterTruthy_sum (xs : List (Option Int)) :
    (pyFilterTruthy xs).sum = (xs.filterMap id).sum := by
  induction xs with
  | nil => rfl
  | cons x xs ih =>
    rcases x with _ | n
    · simpa [pyFilterTruthy, truthyInt] using ih
    · by_cases hn : n = 0
      · subst hn
        simpa [pyFilterTruthy, truthyInt] using ih
      · simp only [pyFilterTruthy, truthyInt, List.filterMap_cons] at ih ⊢
        simp [hn, ih]

theorem redistribute_pos_eq (total : Int) (xs : List (Option Int))
    (hM : 0 < xs.count none) (hsp : 0 < total - (pyFilterTruthy xs).sum) :
    redistribute total xs =
      xs.map (fun h =>
        if h = none then
          some ((total - (pyFilterTruthy xs).sum).fdiv (xs.count none))
        else h) := by
  rw [redistribute, if_neg (by omega), if_pos hsp]

/-- C4: the row-height pass with `M > 0` auto rows and positive leftover
`D − H` (with `H` the sum of all known row heights) replaces exactly the auto
rows by `floor((D − H) / M)`, keeps every known row height unchanged, and the
assigned spacing is never negative. -/
theorem claim_C4 (D : Int) (hs : List (Option Int))
    (hM : 0 < hs.count none) (hsp : 0 < D - (hs.filterMap id).sum) :
    redistribute D hs =
      hs.map (fun h =>
        if h = none then
          some ((D - (hs.filterMap id).sum).fdiv (hs.count none))
        else h) ∧
    0 ≤ (D - (hs.filterMap id).sum).fdiv (hs.count none) := by
  have hsum := pyFilterTruthy_sum hs
  constructor
  · rw [redistribute_pos_eq D hs hM (by rw [hsum]; exact hsp), hsum]
  · exact Int.fdiv_nonneg (le_of_lt hsp) (by positivity)

def hsC4 : List (Option Int) := [some 10, none, none]

theorem claim_C4_witness :
    redistribute 64 hsC4 =
      hsC4.map (fun h =>
        if h = none then
          some ((64 - (hsC4.filterMap id).sum).fdiv (hsC4.count none))
        else h) ∧
    0 ≤ (64 - (hsC4.filterMap id).sum).fdiv (hsC4.count none) :=
  claim_C4 64 hsC4 (by decide) (by decide)

/-- C10: a cell of computed size 0 (a spacer of value 0 or a zone image of
zero height) contributes nothing to the sum of known sizes in either
redistribution pass, exactly like a size-`None` cell; a row all of whose cells
have size 0 gets row height `None` and is therefore an auto row: when leftover
space is positive it receives the redistributed spacing. -/
theorem claim_C10 :
    (∀ xs ys : List (Option Int),
        (pyFilterTruthy (xs ++ some 0 :: ys)).sum =
          (pyFilterTruthy (xs ++ none :: ys)).sum) ∧
    (∀ zs : Zones Nat,
        get_element_height zs (Cell.vspacer 0) = .ok (some 0) ∧
        get_element_width zs (Cell.spacer 0) = .ok (some 0)) ∧
    (∀ (zs : Zones Nat) (s : String) (z : Zone Nat Img) (w : Nat),
        lookupZ zs s = some z → z.image = some (Img.mk w 0) →
        get_element_height zs (Cell.str s) = .ok (some 0)) ∧
    (∀ hs : List (Option Int), (∀ h ∈ hs, h = some 0) → pyRowHeight hs = none) ∧
    (∀ (D : Int) (hs : List (Option Int)) (i : Nat),
        hs[i]? = some none → 0 < D - (pyFilterTruthy hs).sum →
        (redistribute D hs)[i]? =
          some (some ((D - (pyFilterTruthy hs).sum).fdiv (hs.count none)))) := by
  refine ⟨?_, ?_, ?_, ?_, ?_⟩
  · intro xs ys
    simp [pyFilterTruthy, List.filterMap_append, truthyInt]
  · intro zs
    exact ⟨rfl, rfl⟩
  · intro zs s z w hz hi
    simp [get_element_height, hz, hi]
  · intro hs h
    have : pyFilterTruthy hs = [] := by
      rw [pyFilterTruthy, List.filterMap_eq_nil_iff]
      intro a ha
      rw [h a ha]
      rfl
    rw [pyRowHeight, if_pos this]
  · intro D hs i hi hsp
    have hmem : none ∈ hs := List.getElem?_mem hi
    have hM : 0 < hs.count none := List.count_pos_iff.mpr hmem
    rw [redistribute_pos_eq D hs hM hsp, List.getElem?_map, hi]
    rfl

theorem claim_C10_witness :
    (redistribute 10 [some 0, none])[1]? =
      some (some ((10 - (pyFilterTruthy [some 0, none]).sum).fdiv
        ([some 0, none].count none))) :=
  claim_C10.2.2.2.2 10 [some 0, none] 1 rfl (by decide)

/-! ### Claim C3 (degenerate leftover space) and the C8 counterexample -/

def envC3 : String → Option Nat := fun _ => some 1

def icbC3 : String → Option Nat → Img := fun _ _ => Img.mk 5 50

/-- A zone filling the whole display height plus a filler-only row: the filler
row has no sizeable cell, the leftover vertical space is `50 − 50 = 0`, so the
auto row keeps height `None`. -/
def zmC3 : ZoneManager Nat :=
  { zones := [("A", { caching := true, value := some 1, image := some (Img.mk 5 50) })],
    markup := [[Cell.str "A"], [Cell.str "...."]],
    zones_that_need_refresh := fun _ => true,
    width := 100, height := 50 }

/-- C3: with zero leftover vertical space and an auto row, `show()` does not
clamp the auto height to zero — the height stays `None` and `y += row_height`
raises `TypeError`, so the compositing pass does not complete. -/
theorem claim_C3_failing :
    ZoneManager.show envC3 icbC3 zmC3 = .error .typeError := by
  rfl

def icbC8 : String → Option Nat → Img := fun _ _ => Img.mk 10 3

/-- A zone filling the whole display width next to an unknown non-filler cell:
the unknown cell's width stays `None` because there is no leftover width. -/
def zmC8 : ZoneManager Nat :=
  { zones := [("A", { caching := true, value := some 1, image := some (Img.mk 10 3) })],
    markup := [[Cell.str "A", Cell.str "ZZZ"]],
    zones_that_need_refresh := fun _ => true,
    width := 10, height := 50 }

/-- C8, claim as stated, is false: the markup contains the unknown non-filler
cell `"ZZZ"`, yet `show()` raises `TypeError` (via `x += None`) instead of
completing, because the row has no leftover width to assign to the unknown
cell. -/
theorem claim_C8_counterexample :
    zmC8.markup = [[Cell.str "A", Cell.str "ZZZ"]] ∧
    lookupZ zmC8.zones "ZZZ" = none ∧
    allDots "ZZZ" = false ∧
    ZoneManager.show envC3 icbC8 zmC8 = .error .typeError := by
  refine ⟨rfl, by decide, by decide, by rfl⟩

/-! ### Supporting lemmas for the `show` proofs -/

theorem Zone.refresh_image_some {V I : Type} [DecidableEq V] (icb : Option V → I)
    (z : Zone V I) (v : Option V) (h : z.image ≠ none) :
    ((Zone.refresh icb z v).2).image ≠ none := by
  by_cases hv : v = z.value
  · rw [Zone.refresh_of_eq icb hv]
    exact h
  · rw [Zone.refresh_of_ne icb hv]
    simp

theorem setZone_cons {V : Type} (k0 : String) (z0 : Zone V Img) (rest : Zones V)
    (k : String) (z : Zone V Img) :
    setZone ((k0, z0) :: rest) k z =
      (if k0 = k then (k, z) else (k0, z0)) :: setZone rest k z := rfl

theorem lookupZ_setZone_none_iff {V : Type} (zs : Zones V) (k : String)
    (z : Zone V Img) (q : String) :
    (lookupZ (setZone zs k z) q = none ↔ lookupZ zs q = none) := by
  induction zs with
  | nil => simp [setZone, lookupZ]
  | cons p rest ih =>
    obtain ⟨k0, z0⟩ := p
    rw [setZone_cons]
    by_cases hk0 : k0 = k
    · subst hk0
      rw [if_pos rfl]
      simp only [lookupZ]
      by_cases hq : k0 = q
      · simp [hq]
      · rw [if_neg hq, if_neg hq]
        exact ih
    · rw [if_neg hk0]
      simp only [lookupZ]
      by_cases hq : k0 = q
      · simp [hq]
      · rw [if_neg hq, if_neg hq]
        exact ih

theorem lookupZ_setZone_other {V : Type} (zs : Zones V) (k : String)
    (z : Zone V Img) (q : String) (hq : q ≠ k) :
    lookupZ (setZone zs k z) q = lookupZ zs q := by
  induction zs with
  | nil => rfl
  | cons p rest ih =>
    obtain ⟨k0, z0⟩ := p
    rw [setZone_cons]
    by_cases hk0 : k0 = k
    · subst hk0
      rw [if_pos rfl]
      simp only [lookupZ]
      rw [if_neg (fun hh => hq hh.symm), if_neg (fun hh => hq hh.symm)]
      exact ih
    · rw [if_neg hk0]
      simp only [lookupZ]
      by_cases hq0 : k0 = q
      · rw [if_pos hq0, if_pos hq0]
      · rw [if_neg hq0, if_neg hq0]
        exact ih

theorem lookupZ_setZone_self {V : Type} (zs : Zones V) (k : String)
    (z z0 : Zone V Img) (h : lookupZ zs k = some z0) :
    lookupZ (setZone zs k z) k = some z := by
  induction zs with
  | nil => simp [lookupZ] at h
  | cons p rest ih =>
    obtain ⟨k0, z1⟩ := p
    rw [setZone_cons]
    by_cases hk0 : k0 = k
    · subst hk0
      rw [if_pos rfl]
      simp [lookupZ]
    · rw [if_neg hk0]
      simp only [lookupZ, if_neg hk0] at h
      simp only [lookupZ, if_neg hk0]
      exact ih h

theorem cellZone_some {V : Type} {zs : Zones V} {c : Cell} {k : String}
    {z : Zone V Img} (h : cellZone zs c = some (k, z)) :
    c = Cell.str k ∧ lookupZ zs k = some z := by
  cases c with
  | str s =>
    simp only [cellZone] at h
    rcases hl : lookupZ zs s with _ | z0
    · rw [hl] at h
      simp at h
    · rw [hl] at h
      simp only [Option.some_inj, Prod.mk.injEq] at h
      obtain ⟨rfl, rfl⟩ := h
      exact ⟨rfl, hl⟩
  | spacer v => simp [cellZone] at h
  | vspacer v => simp [cellZone] at h

theorem redistribute_length (total : Int) (xs : List (Option Int)) :
    (redistribute total xs).length = xs.length := by
  rw [redistribute]
  split
  · rfl
  · split
    · rw [List.length_map]
    · rfl

theorem widthsRow_length {V : Type} (zs : Zones V) (row : List Cell)
    (ws : List (Option Int)) (h : widthsRow zs row = .ok ws) :
    ws.length = row.length := by
  induction row generalizing ws with
  | nil =>
    simp only [widthsRow] at h
    obtain rfl : ([] : List (Option Int)) = ws := by simpa using h
    rfl
  | cons c rest ih =>
    simp only [widthsRow] at h
    rcases hw : get_element_width zs c with e | w
    · rw [hw] at h; simp at h
    · rw [hw] at h
      rcases hr : widthsRow zs rest with e | ws0
      · rw [hr] at h; simp at h
      · rw [hr] at h
        obtain rfl : w :: ws0 = ws := by simpa using h
        simp [ih ws0 hr]

theorem zip_mem_left {α β : Type} (l1 : List α) (l2 : List β) (a : α)
    (ha : a ∈ l1) (hl : l1.length ≤ l2.length) : ∃ b, (a, b) ∈ l1.zip l2 := by
  induction l1 generalizing l2 with
  | nil => simp at ha
  | cons x xs ih =>
    cases l2 with
    | nil => simp at hl
    | cons y ys =>
      rcases List.mem_cons.mp ha with rfl | ha'
      · exact ⟨y, List.mem_cons_self _ _⟩
      · obtain ⟨b, hb⟩ := ih ys ha' (by simpa using hl)
        exact ⟨b, List.mem_cons_of_mem _ hb⟩

/-- Everything the compositing walk of one row guarantees about dirty flags
and pastes: it never sets a flag; a flag it cleared belongs to a pasted zone;
pasted zones end up clean; every paste is of a known zone; and a dirty known
zone occurring among the items is pasted. -/
theorem compositeItems_spec {V : Type} (zs : Zones V) (y : Int)
    (items : List (Cell × Option Int)) :
    ∀ (flags : String → Bool) (x : Int) (r : (String → Bool) × List Paste),
      compositeItems zs y flags x items = .ok r →
      (∀ k, r.1 k = true → flags k = true) ∧
      (∀ k, r.1 k = false → flags k = false ∨ k ∈ r.2.map Paste.key) ∧
      (∀ k, k ∈ r.2.map Paste.key → r.1 k = false) ∧
      (∀ p, p ∈ r.2 → ∃ z, lookupZ zs p.key = some z) ∧
      (∀ (k : String) (z : Zone V Img) (w : Option Int),
          flags k = true → lookupZ zs k = some z → (Cell.str k, w) ∈ items →
          k ∈ r.2.map Paste.key) := by
  induction items with
  | nil =>
    intro flags x r h
    simp only [compositeItems] at h
    obtain rfl : ((flags, []) : (String → Bool) × List Paste) = r := by
      simpa using h
    refine ⟨fun k hk => hk, fun k hk => Or.inl hk, ?_, ?_, ?_⟩
    · intro k hk
      simp at hk
    · intro p hp
      simp at hp
    · intro k z w _ _ hm
      simp at hm
  | cons cw rest ih =>
    intro flags x r h
    obtain ⟨c, w⟩ := cw
    rcases hcz : cellZone zs c with _ | ⟨k0, z0⟩
    · -- not a zone cell
      rcases w with _ | wv
      · simp [compositeItems, hcz] at h
      · simp only [compositeItems, hcz] at h
        have IH := ih flags (x + wv) r h
        refine ⟨IH.1, IH.2.1, IH.2.2.1, IH.2.2.2.1, ?_⟩
        intro k z w0 hf hz hm
        rcases List.mem_cons.mp hm with heq | hm'
        · obtain ⟨hc, _⟩ := Prod.mk.injEq .. |>.mp heq.symm
          subst hc
          simp [cellZone, hz] at hcz
        · exact IH.2.2.2.2 k z w0 hf hz hm'
    · -- a zone cell k0
      have hc0 := cellZone_some hcz
      cases hfk : flags k0 with
      | false =>
        rcases w with _ | wv
        · simp [compositeItems, hcz, hfk] at h
        · simp only [compositeItems, hcz, hfk, Bool.false_eq_true, if_false] at h
          have IH := ih flags (x + wv) r h
          refine ⟨IH.1, IH.2.1, IH.2.2.1, IH.2.2.2.1, ?_⟩
          intro k z w0 hf hz hm
          rcases List.mem_cons.mp hm with heq | hm'
          · obtain ⟨hc, _⟩ := Prod.mk.injEq .. |>.mp heq.symm
            rw [hc0.1] at hc
            obtain rfl : k0 = k := Cell.str.injEq .. |>.mp hc
            exact absurd hf (by simp [hfk])
          · exact IH.2.2.2.2 k z w0 hf hz hm'
      | true =>
        rcases hzi : z0.image with _ | img
        · simp [compositeItems, hcz, hfk, hzi] at h
        · rcases w with _ | wv
          · simp [compositeItems, hcz, hfk, hzi] at h
          · rcases hrec : compositeItems zs y (setFlag flags k0 false) (x + wv) rest
              with e | ⟨fl, ps⟩
            · simp [compositeItems, hcz, hfk, hzi, hrec] at h
            · simp only [compositeItems, hcz, hfk, hzi, hrec, if_true,
                Except.ok.injEq] at h
              subst h
              have IH := ih (setFlag flags k0 false) (x + wv) (fl, ps) hrec
              refine ⟨?_, ?_, ?_, ?_, ?_⟩
              · intro k hk
                have hs := IH.1 k hk
                by_cases hkk : k = k0
                · rw [setFlag, if_pos hkk] at hs
                  exact absurd hs (by simp)
                · rwa [setFlag, if_neg hkk] at hs
              · intro k hk
                rcases IH.2.1 k hk with hs | hmem
                · by_cases hkk : k = k0
                  · subst hkk
                    exact Or.inr (by simp)
                  · rw [setFlag, if_neg hkk] at hs
                    exact Or.inl hs
                · refine Or.inr ?_
                  simp only [List.map_cons, List.mem_cons]
                  exact Or.inr hmem
              · intro k hk
                simp only [List.map_cons, List.mem_cons] at hk
                rcases hk with rfl | hk'
                · cases hfl : fl k with
                  | false => exact hfl
                  | true =>
                    have hs := IH.1 k hfl
                    rw [setFlag, if_pos rfl] at hs
                    exact absurd hs (by simp)
                · exact IH.2.2.1 k hk'
              · intro p hp
                rcases List.mem_cons.mp hp with rfl | hp'
                · exact ⟨z0, hc0.2⟩
                · exact IH.2.2.2.1 p hp'
              · intro k z w0 hf hz hm
                by_cases hkk : k = k0
                · subst hkk
                  simp
                · rcases List.mem_cons.mp hm with heq | hm'
                  · obtain ⟨hc, _⟩ := Prod.mk.injEq .. |>.mp heq.symm
                    rw [hc0.1] at hc
                    exact absurd (Cell.str.injEq .. |>.mp hc).symm hkk
                  · have hs : setFlag flags k0 false k = true := by
                      rw [setFlag, if_neg hkk]
                      exact hf
                    have hmem := IH.2.2.2.2 k z w0 hs hz hm'
                    simp only [List.map_cons, List.mem_cons]
                    exact Or.inr hmem

/-- The same flag/paste guarantees lifted to the whole compositing pass. -/
theorem phase2_spec {V : Type} (zs : Zones V) (ow : Int)
    (rows : List (List Cell × Option Int)) :
    ∀ (flags : String → Bool) (y : Int) (r : (String → Bool) × List Paste),
      phase2 zs ow flags y rows = .ok r →
      (∀ k, r.1 k = true → flags k = true) ∧
      (∀ k, r.1 k = false → flags k = false ∨ k ∈ r.2.map Paste.key) ∧
      (∀ k, k ∈ r.2.map Paste.key → r.1 k = false) ∧
      (∀ p, p ∈ r.2 → ∃ z, lookupZ zs p.key = some z) ∧
      (∀ (k : String) (z : Zone V Img) (rw : List Cell) (rh : Option Int),
          flags k = true → lookupZ zs k = some z → (rw, rh) ∈ rows →
          Cell.str k ∈ rw → k ∈ r.2.map Paste.key) := by
  induction rows with
  | nil =>
    intro flags y r h
    simp only [phase2] at h
    obtain rfl : ((flags, []) : (String → Bool) × List Paste) = r := by
      simpa using h
    refine ⟨fun k hk => hk, fun k hk => Or.inl hk, ?_, ?_, ?_⟩
    · intro k hk
      simp at hk
    · intro p hp
      simp at hp
    · intro k z rw rh _ _ hm
      simp at hm
  | cons rr rest ih =>
    intro flags y r h
    obtain ⟨row, rh⟩ := rr
    rcases hws : widthsRow zs row with e | ws
    · simp [phase2, hws] at h
    · rcases hci : compositeItems zs y flags 0 (row.zip (redistribute ow ws))
        with e | ⟨fl1, ps1⟩
      · simp [phase2, hws, hci] at h
      · rcases rh with _ | hgt
        · simp [phase2, hws, hci] at h
        · rcases hrec : phase2 zs ow fl1 (y + hgt) rest with e | ⟨fl2, ps2⟩
          · simp [phase2, hws, hci, hrec] at h
          · simp only [phase2, hws, hci, hrec, Except.ok.injEq] at h
            subst h
            have CI := compositeItems_spec zs y (row.zip (redistribute ow ws))
              flags 0 (fl1, ps1) hci
            have IH := ih fl1 (y + hgt) (fl2, ps2) hrec
            refine ⟨?_, ?_, ?_, ?_, ?_⟩
            · intro k hk
              exact CI.1 k (IH.1 k hk)
            · intro k hk
              rcases IH.2.1 k hk with hf1 | hmem
              · rcases CI.2.1 k hf1 with hf | hmem
                · exact Or.inl hf
                · refine Or.inr ?_
                  simp only [List.map_append, List.mem_append]
                  exact Or.inl hmem
              · refine Or.inr ?_
                simp only [List.map_append, List.mem_append]
                exact Or.inr hmem
            · intro k hk
              simp only [List.map_append, List.mem_append] at hk
              rcases hk with hk1 | hk2
              · have hf1 : fl1 k = false := CI.2.2.1 k hk1
                cases hf2 : fl2 k with
                | false => exact hf2
                | true =>
                  rw [IH.1 k hf2] at hf1
                  exact absurd hf1 (by simp)
              · exact IH.2.2.1 k hk2
            · intro p hp
              rcases List.mem_append.mp hp with hp1 | hp2
              · exact CI.2.2.2.1 p hp1
              · exact IH.2.2.2.1 p hp2
            · intro k z rw0 rh0 hf hz hmem hcell
              rcases List.mem_cons.mp hmem with heq | hm'
              · obtain ⟨hr1, _⟩ := Prod.mk.injEq .. |>.mp heq.symm
                subst hr1
                have hlen : row.length ≤ (redistribute ow ws).length := by
                  rw [redistribute_length, widthsRow_length zs row ws hws]
                obtain ⟨w0, hw0⟩ := zip_mem_left row (redistribute ow ws)
                  (Cell.str k) hcell hlen
                have hmem1 := CI.2.2.2.2 k z w0 hf hz hw0
                simp only [List.map_append, List.mem_append]
                exact Or.inl hmem1
              · cases hf1 : fl1 k with
                | true =>
                  have hmem2 := IH.2.2.2.2 k z rw0 rh0 hf1 hz hm' hcell
                  simp only [List.map_append, List.mem_append]
                  exact Or.inr hmem2
                | false =>
                  rcases CI.2.1 k hf1 with hff | hmem1
                  · exact absurd hf (by simp [hff])
                  · simp only [List.map_append, List.mem_append]
                    exact Or.inl hmem1

/-- What refreshing a single markup cell guarantees: zone-dict keys are
unchanged, dirty flags are only ever set, the warning list grows by exactly
the unknown non-filler strings, and a zone that had an image keeps one. -/
theorem refreshCell_spec {V : Type} [DecidableEq V] (env : String → Option V)
    (icbs : String → Option V → Img) (st : RState V) (c : Cell) :
    (∀ q, lookupZ (refreshCell env icbs st c).zones q = none ↔
        lookupZ st.zones q = none) ∧
    (∀ k, st.flags k = true → (refreshCell env icbs st c).flags k = true) ∧
    (∀ q, q ∈ (refreshCell env icbs st c).warnings ↔
        q ∈ st.warnings ∨
          (Cell.str q = c ∧ lookupZ st.zones q = none ∧ allDots q = false)) ∧
    (∀ q z, lookupZ st.zones q = some z → z.image ≠ none →
        ∃ z2, lookupZ (refreshCell env icbs st c).zones q = some z2 ∧
          z2.image ≠ none) := by
  cases c with
  | spacer v =>
    refine ⟨fun q => Iff.rfl, fun k h => h, ?_, fun q z hq hi => ⟨z, hq, hi⟩⟩
    intro q
    simp [refreshCell]
  | vspacer v =>
    refine ⟨fun q => Iff.rfl, fun k h => h, ?_, fun q z hq hi => ⟨z, hq, hi⟩⟩
    intro q
    simp [refreshCell]
  | str s =>
    rcases hl : lookupZ st.zones s with _ | z
    · by_cases hd : allDots s = true
      · have hst : refreshCell env icbs st (Cell.str s) = st := by
          simp [refreshCell, hl, hd]
        rw [hst]
        refine ⟨fun q => Iff.rfl, fun k h => h, ?_, fun q z hq hi => ⟨z, hq, hi⟩⟩
        intro q
        constructor
        · exact Or.inl
        · rintro (hq | ⟨heq, _, hdq⟩)
          · exact hq
          · obtain rfl : q = s := Cell.str.injEq .. |>.mp heq
            rw [hd] at hdq
            exact absurd hdq (by simp)
      · have hst : refreshCell env icbs st (Cell.str s) =
            { st with warnings := st.warnings ++ [s] } := by
          simp [refreshCell, hl, hd]
        rw [hst]
        refine ⟨fun q => Iff.rfl, fun k h => h, ?_, fun q z hq hi => ⟨z, hq, hi⟩⟩
        intro q
        simp only [List.mem_append, List.mem_singleton]
        constructor
        · rintro (hq | rfl)
          · exact Or.inl hq
          · exact Or.inr ⟨rfl, hl, by simpa using hd⟩
        · rintro (hq | ⟨heq, _, _⟩)
          · exact Or.inl hq
          · exact Or.inr (Cell.str.injEq .. |>.mp heq)
    · rcases hr : Zone.refresh (icbs s) z (env s) with ⟨hrf, z2⟩
      have hst : refreshCell env icbs st (Cell.str s) =
          { zones := setZone st.zones s z2,
            flags := if hrf && !(st.flags s) then setFlag st.flags s true
                     else st.flags,
            warnings := st.warnings } := by
        simp only [refreshCell, hl, hr]
      rw [hst]
      refine ⟨?_, ?_, ?_, ?_⟩
      · intro q
        exact lookupZ_setZone_none_iff st.zones s z2 q
      · intro k hk
        split
        · simp only [setFlag]
          split
          · rfl
          · exact hk
        · exact hk
      · intro q
        constructor
        · exact Or.inl
        · rintro (hq | ⟨heq, hnone, _⟩)
          · exact hq
          · obtain rfl : q = s := Cell.str.injEq .. |>.mp heq
            rw [hl] at hnone
            exact absurd hnone (by simp)
      · intro q z0 hq hi
        by_cases hqs : q = s
        · subst hqs
          rw [hl] at hq
          obtain rfl : z = z0 := Option.some_inj.mp hq
          refine ⟨z2, lookupZ_setZone_self st.zones q z2 z hl, ?_⟩
          have h2 := Zone.refresh_image_some (icbs q) z (env q) hi
          rw [hr] at h2
          exact h2
        · exact ⟨z0, by rw [lookupZ_setZone_other st.zones s z2 q hqs]; exact hq, hi⟩

/-- `refreshCell_spec` lifted to the fold over one markup row. -/
theorem rowFold_spec {V : Type} [DecidableEq V] (env : String → Option V)
    (icbs : String → Option V → Img) (row : List Cell) :
    ∀ st : RState V,
      (∀ q, lookupZ (row.foldl (refreshCell env icbs) st).zones q = none ↔
          lookupZ st.zones q = none) ∧
      (∀ k, st.flags k = true →
          (row.foldl (refreshCell env icbs) st).flags k = true) ∧
      (∀ q, q ∈ (row.foldl (refreshCell env icbs) st).warnings ↔
          q ∈ st.warnings ∨
            (Cell.str q ∈ row ∧ lookupZ st.zones q = none ∧ allDots q = false)) ∧
      (∀ q z, lookupZ st.zones q = some z → z.image ≠ none →
          ∃ z2, lookupZ (row.foldl (refreshCell env icbs) st).zones q = some z2 ∧
            z2.image ≠ none) := by
  induction row with
  | nil =>
    intro st
    refine ⟨fun q => Iff.rfl, fun k h => h, ?_, fun q z hq hi => ⟨z, hq, hi⟩⟩
    intro q
    simp
  | cons c rest ih =>
    intro st
    have RC := refreshCell_spec env icbs st c
    have IH := ih (refreshCell env icbs st c)
    simp only [List.foldl_cons]
    refine ⟨?_, ?_, ?_, ?_⟩
    · intro q
      rw [IH.1 q, RC.1 q]
    · intro k hk
      exact IH.2.1 k (RC.2.1 k hk)
    · intro q
      rw [IH.2.2.1 q, RC.2.2.1 q, RC.1 q]
      simp only [List.mem_cons]
      constructor
      · rintro ((hq | ⟨hc, hp⟩) | ⟨hc, hp⟩)
        · exact Or.inl hq
        · exact Or.inr ⟨Or.inl hc, hp⟩
        · exact Or.inr ⟨Or.inr hc, hp⟩
      · rintro (hq | ⟨hc | hc, hp⟩)
        · exact Or.inl (Or.inl hq)
        · exact Or.inl (Or.inr ⟨hc, hp⟩)
        · exact Or.inr ⟨hc, hp⟩
    · intro q z hq hi
      obtain ⟨z2, hz2, hi2⟩ := RC.2.2.2 q z hq hi
      exact IH.2.2.2 q z2 hz2 hi2

/-- The refresh / row-height pass: zone keys unchanged, flags only set,
warnings are exactly the unknown non-filler strings of the processed rows,
zone images survive, one row height per row. -/
theorem phase1_spec {V : Type} [DecidableEq V] (env : String → Option V)
    (icbs : String → Option V → Img) (rows : List (List Cell)) :
    ∀ (st st2 : RState V) (rhs : List (Option Int)),
      phase1 env icbs st rows = .ok (st2, rhs) →
      (∀ q, lookupZ st2.zones q = none ↔ lookupZ st.zones q = none) ∧
      (∀ k, st.flags k = true → st2.flags k = true) ∧
      (∀ q, q ∈ st2.warnings ↔ q ∈ st.warnings ∨
          ∃ rwx, rwx ∈ rows ∧ Cell.str q ∈ rwx ∧
            lookupZ st.zones q = none ∧ allDots q = false) ∧
      (∀ q z, lookupZ st.zones q = some z → z.image ≠ none →
          ∃ z2, lookupZ st2.zones q = some z2 ∧ z2.image ≠ none) ∧
      rhs.length = rows.length := by
  induction rows with
  | nil =>
    intro st st2 rhs h
    simp only [phase1] at h
    obtain ⟨rfl, rfl⟩ : st = st2 ∧ ([] : List (Option Int)) = rhs := by
      simpa using h
    refine ⟨fun q => Iff.rfl, fun k h => h, ?_, fun q z hq hi => ⟨z, hq, hi⟩, rfl⟩
    intro q
    simp
  | cons row rest ih =>
    intro st st2 rhs h
    rcases hhr : heightsRow (row.foldl (refreshCell env icbs) st).zones row
      with e | hs0
    · simp [phase1, hhr] at h
    · rcases hrec : phase1 env icbs (row.foldl (refreshCell env icbs) st) rest
        with e | ⟨st3, rhs3⟩
      · simp [phase1, hhr, hrec] at h
      · simp only [phase1, hhr, hrec, Except.ok.injEq] at h
        obtain ⟨rfl, rfl⟩ : st3 = st2 ∧ pyRowHeight hs0 :: rhs3 = rhs := by
          simpa using h
        have F := rowFold_spec env icbs row st
        have IH := ih (row.foldl (refreshCell env icbs) st) st3 rhs3 hrec
        refine ⟨?_, ?_, ?_, ?_, ?_⟩
        · intro q
          rw [IH.1 q, F.1 q]
        · intro k hk
          exact IH.2.1 k (F.2.1 k hk)
        · intro q
          rw [IH.2.2.1 q, F.2.2.1 q]
          simp only [F.1 q, List.mem_cons]
          constructor
          · rintro ((hq | ⟨hc, hp⟩) | ⟨rwx, hrw, hc, hp⟩)
            · exact Or.inl hq
            · exact Or.inr ⟨row, Or.inl rfl, hc, hp⟩
            · exact Or.inr ⟨rwx, Or.inr hrw, hc, hp⟩
          · rintro (hq | ⟨rwx, rfl | hrw, hc, hp⟩)
            · exact Or.inl (Or.inl hq)
            · exact Or.inl (Or.inr ⟨hc, hp⟩)
            · exact Or.inr ⟨rwx, hrw, hc, hp⟩
        · intro q z hq hi
          obtain ⟨z2, hz2, hi2⟩ := F.2.2.2 q z hq hi
          exact IH.2.2.2.1 q z2 hz2 hi2
        · simpa using IH.2.2.2.2

/-- C5: dirty flags are sticky across a (completing) `show()` call: a set flag
whose zone is not pasted in this cycle stays set, and a flag is cleared
exactly when the zone's image was pasted onto the canvas during compositing. -/
theorem claim_C5 (V : Type) [DecidableEq V] (env : String → Option V)
    (icbs : String → Option V → Img) (zm : ZoneManager V)
    (r : ZoneManager V × ShowOut)
    (h : ZoneManager.show env icbs zm = .ok r) (k : String) :
    (zm.zones_that_need_refresh k = true ∧ k ∉ r.2.pastes.map Paste.key →
       r.1.zones_that_need_refresh k = true) ∧
    (k ∈ r.2.pastes.map Paste.key → r.1.zones_that_need_refresh k = false) := by
  rcases h1 : phase1 env icbs ⟨zm.zones, zm.zones_that_need_refresh, []⟩ zm.markup
    with e | ⟨st, rhs⟩
  · simp [ZoneManager.show, h1] at h
  · rcases h2 : phase2 st.zones (zm.width : Int) st.flags 0
        (zm.markup.zip (redistribute (zm.height : Int) rhs)) with e | ⟨fl, ps⟩
    · simp [ZoneManager.show, h1, h2] at h
    · simp only [ZoneManager.show, h1, h2, Except.ok.injEq] at h
      subst h
      have P1 := phase1_spec env icbs zm.markup
        ⟨zm.zones, zm.zones_that_need_refresh, []⟩ st rhs h1
      have P2 := phase2_spec st.zones (zm.width : Int)
        (zm.markup.zip (redistribute (zm.height : Int) rhs)) st.flags 0 (fl, ps) h2
      constructor
      · rintro ⟨hk, hnp⟩
        cases hfl : fl k with
        | true => exact hfl
        | false =>
          rcases P2.2.1 k hfl with hsf | hmem
          · exact absurd (P1.2.1 k hk) (by simp [hsf])
          · exact absurd hmem hnp
      · intro hk
        exact P2.2.2.1 k hk

theorem lookupZ_map_refresh {V : Type} [DecidableEq V]
    (g : String → Zone V Img → Zone V Img) (zs : Zones V) (k : String)
    (z0 : Zone V Img) (h : lookupZ zs k = some z0) :
    lookupZ (zs.map (fun p => (p.1, g p.1 p.2))) k = some (g k z0) := by
  induction zs with
  | nil => simp [lookupZ] at h
  | cons p rest ih =>
    obtain ⟨k0, z1⟩ := p
    simp only [List.map_cons, lookupZ]
    by_cases hk0 : k0 = k
    · subst hk0
      simp only [lookupZ, if_pos rfl] at h
      rw [if_pos rfl, Option.some_inj.mp h]
    · simp only [lookupZ, if_neg hk0] at h
      rw [if_neg hk0]
      exact ih h

theorem lookupZ_any {V : Type} (zs : Zones V) (k : String) (z0 : Zone V Img)
    (h : lookupZ zs k = some z0) :
    zs.any (fun p => p.1 = k) = true := by
  induction zs with
  | nil => simp [lookupZ] at h
  | cons p rest ih =>
    obtain ⟨k0, z1⟩ := p
    simp only [List.any_cons]
    by_cases hk0 : k0 = k
    · simp [hk0]
    · simp only [lookupZ, if_neg hk0] at h
      simp [ih h]

/-- C7: construction (`refresh_on_start`) refreshes every zone of the
collection and marks it dirty; consequently a completing first `show()` call
pastes every zone key that the markup references and the collection contains. -/
theorem claim_C7 (V : Type) [DecidableEq V] (env env2 : String → Option V)
    (icbs : String → Option V → Img) (zs : Zones V) (markup : List (List Cell))
    (w h : Nat) :
    (∀ k z0, lookupZ zs k = some z0 →
        lookupZ (ZoneManager.init env icbs zs markup w h).zones k =
          some ((Zone.refresh (icbs k) z0 (env k)).2) ∧
        (ZoneManager.init env icbs zs markup w h).zones_that_need_refresh k = true) ∧
    (∀ (r : ZoneManager V × ShowOut),
        ZoneManager.show env2 icbs (ZoneManager.init env icbs zs markup w h) = .ok r →
        ∀ k z0 rwx, lookupZ zs k = some z0 → rwx ∈ markup → Cell.str k ∈ rwx →
          k ∈ r.2.pastes.map Paste.key) := by
  have hinit : ∀ k z0, lookupZ zs k = some z0 →
      lookupZ (ZoneManager.init env icbs zs markup w h).zones k =
        some ((Zone.refresh (icbs k) z0 (env k)).2) ∧
      (ZoneManager.init env icbs zs markup w h).zones_that_need_refresh k = true := by
    intro k z0 hk
    constructor
    · exact lookupZ_map_refresh (fun s z => (Zone.refresh (icbs s) z (env s)).2)
        zs k z0 hk
    · show (if zs.any (fun p => p.1 = k) then true else false) = true
      rw [lookupZ_any zs k z0 hk]
      rfl
  refine ⟨hinit, ?_⟩
  intro r hshow k z0 rwx hk hrow hcell
  rcases h1 : phase1 env2 icbs
      ⟨(ZoneManager.init env icbs zs markup w h).zones,
       (ZoneManager.init env icbs zs markup w h).zones_that_need_refresh, []⟩
      markup with e | ⟨st, rhs⟩
  · simp [ZoneManager.show, ZoneManager.init] at hshow
    simp [ZoneManager.init] at h1
    simp [h1] at hshow
  · rcases h2 : phase2 st.zones (w : Int) st.flags 0
        (markup.zip (redistribute (h : Int) rhs)) with e | ⟨fl, ps⟩
    · simp only [ZoneManager.show] at hshow
      rw [show (ZoneManager.init env icbs zs markup w h).markup = markup from rfl,
          show (ZoneManager.init env icbs zs markup w h).width = w from rfl,
          show (ZoneManager.init env icbs zs markup w h).height = h from rfl] at hshow
      rw [h1] at hshow
      simp only [h2] at hshow
      simp at hshow
    · have P1 := phase1_spec env2 icbs markup
        ⟨(ZoneManager.init env icbs zs markup w h).zones,
         (ZoneManager.init env icbs zs markup w h).zones_that_need_refresh, []⟩
        st rhs h1
      have hres : r.2.pastes = ps := by
        simp only [ZoneManager.show] at hshow
        rw [show (ZoneManager.init env icbs zs markup w h).markup = markup from rfl,
            show (ZoneManager.init env icbs zs markup w h).width = w from rfl,
            show (ZoneManager.init env icbs zs markup w h).height = h from rfl] at hshow
        rw [h1] at hshow
        simp only [h2, Except.ok.injEq] at hshow
        rw [← hshow]
      rw [hres]
      have hknown := (hinit k z0 hk).1
      have hflag := (hinit k z0 hk).2
      have hstflag : st.flags k = true := P1.2.1 k hflag
      have hstz : ∃ z, lookupZ st.zones k = some z := by
        rcases hlz : lookupZ st.zones k with _ | z'
        · have := (P1.1 k).mp hlz
          rw [hknown] at this
          exact absurd this (by simp)
        · exact ⟨z', rfl⟩
      obtain ⟨z', hz'⟩ := hstz
      have hlen : markup.length ≤ (redistribute (h : Int) rhs).length := by
        rw [redistribute_length, P1.2.2.2.2]
      obtain ⟨rh0, hzipmem⟩ := zip_mem_left markup (redistribute (h : Int) rhs)
        rwx hrow hlen
      have P2 := phase2_spec st.zones (w : Int)
        (markup.zip (redistribute (h : Int) rhs)) st.flags 0 (fl, ps) h2
      exact P2.2.2.2.2 k z' rwx rh0 hstflag hz' hzipmem hcell

theorem widthsRow_ok {V : Type} (zs : Zones V)
    (himg : ∀ s z, lookupZ zs s = some z → z.image ≠ none) (row : List Cell) :
    ∃ ws, widthsRow zs row = .ok ws := by
  induction row with
  | nil => exact ⟨[], rfl⟩
  | cons c rest ih =>
    obtain ⟨ws0, hws0⟩ := ih
    have : ∃ w, get_element_width zs c = .ok w := by
      cases c with
      | str s =>
        rcases hl : lookupZ zs s with _ | z
        · exact ⟨none, by simp [get_element_width, hl]⟩
        · rcases hzi : z.image with _ | img
          · exact absurd hzi (himg s z hl)
          · exact ⟨some (img.width : Int), by simp [get_element_width, hl, hzi]⟩
      | spacer v => exact ⟨some v, rfl⟩
      | vspacer v => exact ⟨none, rfl⟩
    obtain ⟨w0, hw0⟩ := this
    exact ⟨w0 :: ws0, by simp only [widthsRow, hw0, hws0]⟩

theorem compositeItems_ok {V : Type} (zs : Zones V) (y : Int)
    (items : List (Cell × Option Int))
    (himg : ∀ s z, lookupZ zs s = some z → z.image ≠ none) :
    ∀ (flags : String → Bool) (x : Int),
      (∀ cw ∈ items, cw.2 ≠ none) →
      ∃ r, compositeItems zs y flags x items = .ok r := by
  induction items with
  | nil =>
    intro flags x _
    exact ⟨(flags, []), rfl⟩
  | cons cw rest ih =>
    intro flags x hw
    obtain ⟨c, w⟩ := cw
    rcases w with _ | wv
    · exact absurd rfl (hw (c, none) (List.mem_cons_self _ _))
    · have hwr : ∀ cw ∈ rest, cw.2 ≠ none :=
        fun cw hcw => hw cw (List.mem_cons_of_mem _ hcw)
      rcases hcz : cellZone zs c with _ | ⟨k0, z0⟩
      · obtain ⟨r, hr⟩ := ih flags (x + wv) hwr
        exact ⟨r, by simp only [compositeItems, hcz]; exact hr⟩
      · cases hfk : flags k0 with
        | false =>
          obtain ⟨r, hr⟩ := ih flags (x + wv) hwr
          refine ⟨r, ?_⟩
          simp only [compositeItems, hcz, hfk, Bool.false_eq_true, if_false]
          exact hr
        | true =>
          rcases hzi : z0.image with _ | img
          · exact absurd hzi (himg k0 z0 (cellZone_some hcz).2)
          · obtain ⟨r0, hr0⟩ := ih (setFlag flags k0 false) (x + wv) hwr
            obtain ⟨fl, ps⟩ := r0
            exact ⟨(fl, ⟨k0, img, x, y⟩ :: ps),
              by simp only [compositeItems, hcz, hfk, hzi, hr0, if_true]⟩

theorem phase2_ok {V : Type} (zs : Zones V) (ow : Int)
    (rows : List (List Cell × Option Int))
    (himg : ∀ s z, lookupZ zs s = some z → z.image ≠ none) :
    ∀ (flags : String → Bool) (y : Int),
      (∀ pr ∈ rows, pr.2 ≠ none) →
      (∀ pr ∈ rows, ∀ ws, widthsRow zs pr.1 = .ok ws →
          ∀ w0 ∈ redistribute ow ws, w0 ≠ none) →
      ∃ r, phase2 zs ow flags y rows = .ok r := by
  induction rows with
  | nil =>
    intro flags y _ _
    exact ⟨(flags, []), rfl⟩
  | cons pr rest ih =>
    intro flags y hrh hws
    obtain ⟨row, rh⟩ := pr
    obtain ⟨ws, hws0⟩ := widthsRow_ok zs himg row
    have hzip : ∀ cw ∈ row.zip (redistribute ow ws), (cw : Cell × Option Int).2 ≠ none := by
      intro cw hcw
      obtain ⟨c, w0⟩ := cw
      exact hws (row, rh) (List.mem_cons_self _ _) ws hws0 w0
        (List.of_mem_zip hcw).2
    obtain ⟨⟨fl1, ps1⟩, hci⟩ :=
      compositeItems_ok zs y (row.zip (redistribute ow ws)) himg flags 0 hzip
    rcases rh with _ | hgt
    · exact absurd rfl (hrh (row, none) (List.mem_cons_self _ _))
    · obtain ⟨⟨fl2, ps2⟩, hr2⟩ := ih fl1 (y + hgt)
        (fun pr hpr => hrh pr (List.mem_cons_of_mem _ hpr))
        (fun pr hpr => hws pr (List.mem_cons_of_mem _ hpr))
      exact ⟨(fl2, ps1 ++ ps2),
        by simp only [phase2, hws0, hci, hr2]⟩

/-- C8 (amended): when the refresh/row pass succeeds and every resolved
geometry dimension is known (every zone holds an image, every resolved row
height and redistributed cell width is non-`None` — i.e. leftover space is
positive wherever auto dimensions exist), `show()` completes without raising;
its warnings are exactly the unknown non-filler string cells of the markup,
and unknown cells are never pasted (they only consume blank space). -/
theorem claim_C8 (V : Type) [DecidableEq V] (env : String → Option V)
    (icbs : String → Option V → Img) (zm : ZoneManager V)
    (st : RState V) (rhs : List (Option Int))
    (h1 : phase1 env icbs ⟨zm.zones, zm.zones_that_need_refresh, []⟩ zm.markup =
      .ok (st, rhs))
    (himg : ∀ s z, lookupZ st.zones s = some z → z.image ≠ none)
    (hrh : ∀ rh0 ∈ redistribute (zm.height : Int) rhs, rh0 ≠ none)
    (hws : ∀ rwx ∈ zm.markup, ∀ ws, widthsRow st.zones rwx = .ok ws →
        ∀ w0 ∈ redistribute (zm.width : Int) ws, w0 ≠ none) :
    ∃ r, ZoneManager.show env icbs zm = .ok r ∧
      (∀ s, s ∈ r.2.warnings ↔
          ∃ rwx, rwx ∈ zm.markup ∧ Cell.str s ∈ rwx ∧
            lookupZ zm.zones s = none ∧ allDots s = false) ∧
      (∀ s, lookupZ zm.zones s = none → s ∉ r.2.pastes.map Paste.key) := by
  have P1 := phase1_spec env icbs zm.markup
    ⟨zm.zones, zm.zones_that_need_refresh, []⟩ st rhs h1
  have hrows1 : ∀ pr ∈ zm.markup.zip (redistribute (zm.height : Int) rhs),
      (pr : List Cell × Option Int).2 ≠ none := by
    intro pr hpr
    obtain ⟨a, b⟩ := pr
    exact hrh b (List.of_mem_zip hpr).2
  have hrows2 : ∀ pr ∈ zm.markup.zip (redistribute (zm.height : Int) rhs),
      ∀ ws, widthsRow st.zones (pr : List Cell × Option Int).1 = .ok ws →
        ∀ w0 ∈ redistribute (zm.width : Int) ws, w0 ≠ none := by
    intro pr hpr
    obtain ⟨a, b⟩ := pr
    exact hws a (List.of_mem_zip hpr).1
  obtain ⟨⟨fl, ps⟩, h2⟩ := phase2_ok st.zones (zm.width : Int)
    (zm.markup.zip (redistribute (zm.height : Int) rhs)) himg st.flags 0
    hrows1 hrows2
  refine ⟨({ zm with zones := st.zones, zones_that_need_refresh := fl },
           ⟨st.warnings, ps, redistribute (zm.height : Int) rhs⟩), ?_, ?_, ?_⟩
  · simp only [ZoneManager.show, h1, h2]
  · intro s
    have hw := P1.2.2.1 s
    simpa using hw
  · intro s hnone hmem
    have P2 := phase2_spec st.zones (zm.width : Int)
      (zm.markup.zip (redistribute (zm.height : Int) rhs)) st.flags 0 (fl, ps) h2
    simp only [List.mem_map] at hmem
    obtain ⟨p, hp, hpk⟩ := hmem
    obtain ⟨z, hz⟩ := P2.2.2.2.1 p hp
    rw [hpk] at hz
    rw [(P1.1 s).mpr hnone] at hz
    exact absurd hz (by simp)

/-! ### Concrete witnesses for the `show` claims -/

theorem lookupZ_image_all {V : Type} (zs : Zones V)
    (h : ∀ p ∈ zs, (p : String × Zone V Img).2.image ≠ none) :
    ∀ s z, lookupZ zs s = some z → z.image ≠ none := by
  induction zs with
  | nil =>
    intro s z hz
    simp [lookupZ] at hz
  | cons p rest ih =>
    intro s z hz
    obtain ⟨k0, z0⟩ := p
    simp only [lookupZ] at hz
    by_cases hk : k0 = s
    · rw [if_pos hk] at hz
      rw [← Option.some_inj.mp hz]
      exact h (k0, z0) (List.mem_cons_self _ _)
    · rw [if_neg hk] at hz
      exact ih (fun p hp => h p (List.mem_cons_of_mem _ hp)) s z hz

def exIsOk {α : Type} : Except PyErr α → Bool
  | .ok _ => true
  | .error _ => false

theorem showResult_spec {V : Type} [DecidableEq V] (env : String → Option V)
    (icbs : String → Option V → Img) (zm : ZoneManager V)
    (h : exIsOk (ZoneManager.show env icbs zm) = true) :
    ZoneManager.show env icbs zm =
      .ok (ZoneManager.showResult env icbs zm) := by
  rcases hs : ZoneManager.show env icbs zm with e | r
  · rw [hs] at h
    simp [exIsOk] at h
  · simp only [ZoneManager.showResult, hs]

def envW : String → Option Nat := fun _ => some 1

def icbW : String → Option Nat → Img := fun _ _ => Img.mk 2 3

def zmW : ZoneManager Nat :=
  { zones := [("A", { caching := true, value := some 1, image := some (Img.mk 2 3) }),
              ("B", { caching := true, value := some 1, image := some (Img.mk 4 6) })],
    markup := [[Cell.str "A", Cell.str "ZZZ"]],
    zones_that_need_refresh := fun _ => true,
    width := 100, height := 100 }

theorem claim_C5_witness :
    (ZoneManager.showResult envW icbW zmW).1.zones_that_need_refresh "B" = true ∧
    (ZoneManager.showResult envW icbW zmW).1.zones_that_need_refresh "A" = false :=
  ⟨(claim_C5 Nat envW icbW zmW (ZoneManager.showResult envW icbW zmW)
      (showResult_spec envW icbW zmW (by decide)) "B").1 ⟨rfl, by decide⟩,
   (claim_C5 Nat envW icbW zmW (ZoneManager.showResult envW icbW zmW)
      (showResult_spec envW icbW zmW (by decide)) "A").2 (by decide)⟩

def zsA : Zones Nat := [("A", Zone.fresh true)]

def envA : String → Option Nat := fun _ => some 1

def icbA : String → Option Nat → Img := fun _ _ => Img.mk 4 5

theorem claim_C7_witness :
    "A" ∈ (ZoneManager.showResult envA icbA
      (ZoneManager.init envA icbA zsA [[Cell.str "A"]] 10 10)).2.pastes.map Paste.key :=
  (claim_C7 Nat envA envA icbA zsA [[Cell.str "A"]] 10 10).2
    (ZoneManager.showResult envA icbA
      (ZoneManager.init envA icbA zsA [[Cell.str "A"]] 10 10))
    (showResult_spec envA icbA (ZoneManager.init envA icbA zsA [[Cell.str "A"]] 10 10)
      (by decide))
    "A" (Zone.fresh true) [Cell.str "A"] rfl (by decide) (by decide)

def stW : RState Nat :=
  match phase1 envW icbW ⟨zmW.zones, zmW.zones_that_need_refresh, []⟩ zmW.markup with
  | .ok (st, _) => st
  | .error _ => ⟨[], fun _ => false, []⟩

def rhsW : List (Option Int) :=
  match phase1 envW icbW ⟨zmW.zones, zmW.zones_that_need_refresh, []⟩ zmW.markup with
  | .ok (_, rhs) => rhs
  | .error _ => []

theorem claim_C8_witness :
    ∃ r, ZoneManager.show envW icbW zmW = .ok r ∧
      (∀ s, s ∈ r.2.warnings ↔
          ∃ rwx, rwx ∈ zmW.markup ∧ Cell.str s ∈ rwx ∧
            lookupZ zmW.zones s = none ∧ allDots s = false) ∧
      (∀ s, lookupZ zmW.zones s = none → s ∉ r.2.pastes.map Paste.key) :=
  claim_C8 Nat envW icbW zmW stW rhsW rfl
    (lookupZ_image_all stW.zones (by decide))
    (by decide)
    (by
      intro rwx hrw ws hws0 w0 hw0
      have hm : rwx = [Cell.str "A", Cell.str "ZZZ"] := by
        rw [show zmW.markup = [[Cell.str "A", Cell.str "ZZZ"]] from rfl] at hrw
        simpa using hrw
      subst hm
      rw [show widthsRow stW.zones [Cell.str "A", Cell.str "ZZZ"] =
            .ok [some 2, none] from rfl] at hws0
      obtain rfl : [some 2, none] = ws := by simpa using hws0
      revert hw0
      revert w0
      decide)
